import Mathlib

/-!
Shallow embedding of `scripts/00_farm_activations.py`: hook-based activation
capture, per-batch buffering, and structured persistence for an inference run.

Modelling conventions:
* Tensors carry shape, payload data, dtype, device and an autograd flag;
  `.to(torch.float32)`, `.detach()`, `.cpu()` each update one field.
* Python values that a module forward may return are `PyVal`; calling a tensor
  method on a non-tensor raises `AttributeError`, `output[0]` on an empty tuple
  raises `IndexError` — both modelled as `Except.error`.
* The file system is an append-only log of writes (path, content); a path is a
  list of components.  `Path.exists` checks membership of the path in the log.
* Write failures (directory creation / open / torch.save) are modelled by an
  oracle `writeOk : path → Bool`; a `false` answer is a raised `PersistenceError`.
* The batch loop threads explicit state (buffer, metadata record, file system);
  an uncaught exception short-circuits the loop, and the `finally` block
  (hook removal) runs on every exit path.
-/

namespace Farm

/-! ## Tensors and Python values -/

inductive DType where
  | float32
  | float16
  | int64
deriving DecidableEq, Repr

inductive Device where
  | cpu
  | cuda
deriving DecidableEq, Repr

structure Tensor where
  shape : List Nat
  data : List Int
  dtype : DType
  device : Device
  requiresGrad : Bool
deriving DecidableEq, Repr

/-- `t.to(torch.float32)` -/
def Tensor.toFloat32 (t : Tensor) : Tensor := { t with dtype := .float32 }

/-- `t.detach()` -/
def Tensor.detach (t : Tensor) : Tensor := { t with requiresGrad := false }

/-- `t.cpu()` -/
def Tensor.cpu (t : Tensor) : Tensor := { t with device := .cpu }

/-- `t.shape[-1]` (last axis size). -/
def Tensor.lastDim (t : Tensor) : Nat := t.shape.getLastD 0

/-- A Python value as seen by a forward hook: the module's output. -/
inductive PyVal where
  | tensor (t : Tensor)
  | tup (vs : List PyVal)
  | pyList (vs : List PyVal)
  | noneVal
  | str (s : String)

/-! ## Hook function (`hook_fn` inside `register_hooks`) -/

/-- One record appended to the shared `activations` list:
`{'name': name, 'output': activation.to(torch.float32).detach().cpu()}`. -/
structure Captured where
  name : String
  output : Tensor
deriving DecidableEq, Repr

inductive HookErr where
  | indexError
  | attributeError
deriving DecidableEq, Repr

/-- `hook_fn(module, input, output, name=name)`.  Returns the updated
`activations` list together with the hook's return value (the function body has
no `return`, so the hook returns `None` and the module's output stands
unmodified).  `output[0]` on an empty tuple raises `IndexError`; calling
`.to(torch.float32)` on a value that is not a tensor raises `AttributeError`. -/
def hook_fn (name : String) (output : PyVal) (activations : List Captured) :
    Except HookErr (List Captured × Option PyVal) :=
  let primary : Except HookErr PyVal :=
    match output with
    | .tup [] => .error .indexError
    | .tup (v :: _) => .ok v
    | v => .ok v
  match primary with
  | .error e => .error e
  | .ok (.tensor t) =>
      .ok (activations ++ [⟨name, ((t.toFloat32).detach).cpu⟩], none)
  | .ok _ => .error .attributeError

/-! ## `register_hooks` -/

/-- One entry of `model.named_modules()`: the module's name and `str(type(module))`. -/
structure Module where
  name : String
  typeStr : String
deriving DecidableEq, Repr

/-- `sub` occurs as a contiguous run inside `l`. -/
def containsSub (sub : List Char) : List Char → Bool
  | [] => sub.isEmpty
  | c :: cs => sub.isPrefixOf (c :: cs) || containsSub sub cs

/-- Python `sub in s` substring test. -/
def strContains (s sub : String) : Bool := containsSub sub.data s.data

/-- `register_hooks(model, data_dir, base_model)`: one hook handle per module
whose type string contains `"AttentionBlock"` (handles identified by module
name), plus the fresh shared `activations` buffer. -/
def register_hooks (model : List Module) (data_dir base_model : String) :
    List String × List Captured :=
  (model.filterMap fun m =>
      if strContains m.typeStr "AttentionBlock" then some m.name else none,
   [])

/-! ## Metadata and the file system -/

/-- The `experiment_metadata` dict.  `module_name` / `embed_dim` are `none`
while the corresponding keys are absent (before `save_metadata` first runs). -/
structure Metadata where
  data_dir : String
  dataset_split : String
  dataset_subsplit : String
  batch_size : Nat
  max_seq_length : Option Nat
  base_model : String
  timestamp : String
  module_name : Option String := none
  embed_dim : Option Nat := none
deriving DecidableEq, Repr

inductive FileContent where
  | metadataJson (m : Metadata)
  | payload (t : Tensor) (seqLens : List Nat)
deriving DecidableEq, Repr

/-- The file system as the append-only log of completed writes. -/
abbrev FS := List (List String × FileContent)

/-- `Path.exists p` -/
def FS.pathExists (fs : FS) (p : List String) : Bool := fs.any fun e => e.1 == p

/-- A completed `open(...,'w')`/`torch.save` at path `p`. -/
def FS.write (fs : FS) (p : List String) (c : FileContent) : FS := fs ++ [(p, c)]

/-- The payload file name `f"activations_{batch_idx}.pt"`. -/
def payloadName (batch_idx : Nat) : String :=
  "activations_" ++ toString batch_idx ++ ".pt"

/-! ## `save_metadata` -/

/-- `save_metadata(experiment_metadata, activation, output_dir)`.  The two key
assignments mutate the shared dict *before* the file is opened, so the updated
record is returned even when the write fails (`false` from `writeOk`). -/
def save_metadata (writeOk : List String → Bool) (experiment_metadata : Metadata)
    (activation : Captured) (output_dir : List String) (fs : FS) :
    Bool × Metadata × FS :=
  let metadata_path := output_dir ++ ["metadata.json"]
  let em := { experiment_metadata with
              module_name := some activation.name
              embed_dim := some activation.output.lastDim }
  if writeOk metadata_path then
    (true, em, fs.write metadata_path (.metadataJson em))
  else
    (false, em, fs)

/-! ## `save_batch_activations` -/

/-- The `is_metadata_saved` check followed by the conditional `save_metadata`
call (the first half of the loop body of `save_batch_activations`). -/
def ensure_metadata (writeOk : List String → Bool)
    (experiment_metadata : Metadata) (act : Captured)
    (output_dir : List String) (fs : FS) : Bool × Metadata × FS :=
  if fs.pathExists (output_dir ++ ["metadata.json"]) then
    (true, experiment_metadata, fs)
  else save_metadata writeOk experiment_metadata act output_dir fs

/-- `save_batch_activations(activations, seq_lengths, experiment_metadata,
data_dir, dataset_name, model_name, timestamp, batch_idx)`: for each record,
derive the destination directory, write `metadata.json` only if absent, then
write the payload file.  A failed write raises, aborting the remaining records;
the Boolean result is `false` exactly when an exception propagated. -/
def save_batch_activations (writeOk : List String → Bool)
    (activations : List Captured) (seq_lengths : List Nat)
    (experiment_metadata : Metadata)
    (data_dir dataset_name model_name timestamp : String)
    (batch_idx : Nat) (fs : FS) : Bool × Metadata × FS :=
  match activations with
  | [] => (true, experiment_metadata, fs)
  | act :: rest =>
    let output_dir := [data_dir, dataset_name, model_name, act.name, timestamp]
    match ensure_metadata writeOk experiment_metadata act output_dir fs with
    | (false, em1, fs1) => (false, em1, fs1)
    | (true, em1, fs1) =>
      let output_path := output_dir ++ [payloadName batch_idx]
      if writeOk output_path then
        save_batch_activations writeOk rest seq_lengths em1
          data_dir dataset_name model_name timestamp batch_idx
          (fs1.write output_path (.payload act.output seq_lengths))
      else (false, em1, fs1)

/-! ## The forward pass firing the hooks -/

/-- During `model(input_ids)` each registered hook fires once, in module order,
appending to the shared buffer.  An exception from a hook propagates out of the
forward pass, leaving in the buffer what earlier hooks appended. -/
def fireHooks (hookNames : List String) (outputs : String → PyVal)
    (buffer : List Captured) : Bool × List Captured :=
  match hookNames with
  | [] => (true, buffer)
  | n :: rest =>
    match hook_fn n (outputs n) buffer with
    | .ok (buf2, _) => fireHooks rest outputs buf2
    | .error _ => (false, buffer)

/-! ## The batch loop of `run_inference` -/

inductive RunErr where
  | prepError
  | hookError
  | persistError
deriving DecidableEq, Repr

/-- The external collaborators of one run: whether `prepare_batch` succeeds for
the batch starting at a given offset, the sequence lengths it reports, each
module's output during the forward pass of that batch, and which file writes
succeed. -/
structure BatchEnv where
  prepOk : Nat → Bool
  seqLens : Nat → List Nat
  outputs : Nat → String → PyVal
  writeOk : List String → Bool

structure RunCfg where
  env : BatchEnv
  hookNames : List String
  data_dir : String
  dataset_name : String
  model_name : String
  timestamp : String
  batch_size : Nat

structure LoopState where
  buffer : List Captured
  em : Metadata
  fs : FS
deriving Repr

/-- The body of one iteration of
`for sample_idx in range(0, len(dataset), batch_size)`: prepare the batch, run
the forward pass (hooks fire), persist, then `activations.clear()` — so on
success the resulting state has an empty buffer.  An exception from any step
yields `some` error together with the state at the point of failure. -/
def runBatch (cfg : RunCfg) (sample_idx : Nat) (st : LoopState) :
    Option RunErr × LoopState :=
  if cfg.env.prepOk sample_idx then
    let batch_idx := sample_idx / cfg.batch_size
    match fireHooks cfg.hookNames (cfg.env.outputs sample_idx) st.buffer with
    | (false, buf2) => (some .hookError, { st with buffer := buf2 })
    | (true, buf2) =>
      match save_batch_activations cfg.env.writeOk buf2
          (cfg.env.seqLens sample_idx) st.em cfg.data_dir cfg.dataset_name
          cfg.model_name cfg.timestamp batch_idx st.fs with
      | (false, em2, fs2) =>
        (some .persistError, { buffer := buf2, em := em2, fs := fs2 })
      | (true, em2, fs2) => (none, { buffer := [], em := em2, fs := fs2 })
  else (some .prepError, st)

/-- The batch loop: run each batch in dataset order; an uncaught exception
exits the loop with the failure state, otherwise continue on the state the
batch produced. -/
def runBatches (cfg : RunCfg) : List Nat → LoopState → Option RunErr × LoopState
  | [], st => (none, st)
  | sample_idx :: rest, st =>
    match runBatch cfg sample_idx st with
    | (some e, st2) => (some e, st2)
    | (none, st2) => runBatches cfg rest st2

/-! ## CLI and run driver -/

def DATASET_ID : String := "LongSafari/open-genome"

structure Args where
  data_dir : String
  model : String
  batch_size : Nat
  dataset_split : String
  max_seq_length : Option Nat
deriving DecidableEq, Repr

/-- The options a command line may provide (`none` = flag absent).
`parse_args` exposes no subsplit parameter. -/
structure CliOptions where
  data_dir : Option String
  model : Option String
  batch_size : Option Nat
  dataset_split : Option String
  max_seq_length : Option Nat
deriving DecidableEq, Repr

/-- `parse_args()`: defaults applied for absent flags; `--dataset_split` is
checked against `choices=['sample', 'stage1', 'stage2']` (argparse exits on a
value outside the choices, modelled as `none`). -/
def parse_args (o : CliOptions) : Option Args :=
  let split := o.dataset_split.getD "sample"
  if split = "sample" ∨ split = "stage1" ∨ split = "stage2" then
    some { data_dir := o.data_dir.getD "outputs"
           model := o.model.getD "evo-1-8k-base"
           batch_size := o.batch_size.getD 32
           dataset_split := split
           max_seq_length := o.max_seq_length }
  else none

/-- Python `s.replace(pat, rep)` restricted to a single-character pattern and
replacement — the source's only use is `.replace("/", "_")`. -/
def replaceChar (s : String) (pat rep : Char) : String :=
  ⟨s.data.map fun c => if c = pat then rep else c⟩

/-- The offsets visited by `range(0, datasetLen, batch_size)`. -/
def batchStarts (datasetLen batch_size : Nat) : List Nat :=
  (List.range ((datasetLen + batch_size - 1) / batch_size)).map (· * batch_size)

/-- `for hook in hooks: hook.remove()` over the registry of installed hooks;
returns the registry afterwards and the number of `remove()` calls made. -/
def removeHooks (handles : List String) (installed : List String) :
    List String × Nat :=
  match handles with
  | [] => (installed, 0)
  | h :: rest =>
    ((removeHooks rest (installed.erase h)).1,
     (removeHooks rest (installed.erase h)).2 + 1)

structure RunResult where
  error : Option RunErr
  fs : FS
  buffer : List Captured
  em : Metadata
  dataset_name : String
  hooksInstalled : Nat
  hooksRemoved : Nat
  hooksLeaked : Nat
deriving Repr

/-- `run_inference(args)`.  The model is its `named_modules()` list; the
dataset contributes only its length; `timestamp` is the formatted start time.
The `try`/`finally` around the batch loop guarantees the hook-removal loop runs
on every exit path. -/
def run_inference (model : List Module) (datasetLen : Nat) (env : BatchEnv)
    (timestamp : String) (args : Args) : RunResult :=
  let dataset_subsplit := "validation"
  let dataset_name :=
    replaceChar (DATASET_ID ++ "-" ++ args.dataset_split ++ "-" ++ dataset_subsplit)
      '/' '_'
  let hooks := (register_hooks model args.data_dir args.model).1
  let activations := (register_hooks model args.data_dir args.model).2
  let experiment_metadata : Metadata :=
    { data_dir := args.data_dir
      dataset_split := args.dataset_split
      dataset_subsplit := dataset_subsplit
      batch_size := args.batch_size
      max_seq_length := args.max_seq_length
      base_model := args.model
      timestamp := timestamp }
  let cfg : RunCfg :=
    { env := env, hookNames := hooks, data_dir := args.data_dir
      dataset_name := dataset_name, model_name := args.model
      timestamp := timestamp, batch_size := args.batch_size }
  let res :=
    runBatches cfg (batchStarts datasetLen args.batch_size)
      { buffer := activations, em := experiment_metadata, fs := [] }
  { error := res.1
    fs := res.2.fs
    buffer := res.2.buffer
    em := res.2.em
    dataset_name := dataset_name
    hooksInstalled := hooks.length
    hooksRemoved := (removeHooks hooks hooks).2
    hooksLeaked := (removeHooks hooks hooks).1.length }

/-! ## Observers and concrete fixtures -/

/-- Number of completed writes the run made to path `p`. -/
def writesAt (fs : FS) (p : List String) : Nat :=
  fs.countP fun e => e.1 == p

/-- The metadata document path of a destination directory. -/
def mdPath (dir : List String) : List String := dir ++ ["metadata.json"]

def isTensorB : PyVal → Bool
  | .tensor _ => true
  | _ => false

/-- The claim's notion of an unexpected layer output: not a tensor, and not a
tuple or list containing one. -/
def unexpectedShape : PyVal → Bool
  | .tensor _ => false
  | .tup vs => !(vs.any isTensorB)
  | .pyList vs => !(vs.any isTensorB)
  | .noneVal => true
  | .str _ => true

def sampleTensor : Tensor := ⟨[2, 4, 8], [1, 2], .float16, .cuda, true⟩

def envAllOk : BatchEnv :=
  { prepOk := fun _ => true
    seqLens := fun _ => [3, 2]
    outputs := fun _ _ => .tensor sampleTensor
    writeOk := fun _ => true }

def envNoWrites : BatchEnv := { envAllOk with writeOk := fun _ => false }

def attnModel : List Module := [⟨"blk", "evo.AttentionBlock"⟩, ⟨"lin", "Linear"⟩]

def plainModel : List Module := [⟨"lin", "Linear"⟩]

def sampleArgs : Args := ⟨"outputs", "evo-1-8k-base", 2, "sample", none⟩

/-! ## Helper lemmas -/

lemma removeHooks_snd (handles : List String) :
    ∀ installed, (removeHooks handles installed).2 = handles.length := by
  induction handles with
  | nil => intro inst; rfl
  | cons h t ih => intro inst; simp [removeHooks, ih]

lemma save_metadata_em (writeOk : List String → Bool) (em : Metadata)
    (act : Captured) (output_dir : List String) (fs : FS) :
    (save_metadata writeOk em act output_dir fs).2.1 =
      { em with module_name := some act.name
                embed_dim := some act.output.lastDim } := by
  simp only [save_metadata]
  split <;> rfl

/-! ## Claim theorems -/

/-- C3: for every run of `run_inference`, the number of hook handles removed by
the guaranteed-cleanup block equals the number installed by `register_hooks`,
on every exit path of the batch loop (the environment `env` ranges over all
combinations of batch-preparation, forward-pass and write outcomes, so failing
paths are included). -/
theorem c3_hook_symmetry (model : List Module) (datasetLen : Nat)
    (env : BatchEnv) (timestamp : String) (args : Args) :
    (run_inference model datasetLen env timestamp args).hooksRemoved =
      (run_inference model datasetLen env timestamp args).hooksInstalled := by
  simp only [run_inference]
  exact removeHooks_snd _ _

/-- C5: whenever a matched layer's output has an unexpected shape — not a
tensor and not a tuple/list containing one — `hook_fn` raises (an
`IndexError` on an empty tuple, an `AttributeError` from calling `.to` on a
non-tensor) instead of appending wrong data to the buffer. -/
theorem c5_unexpected_shape_raises (name : String) (o : PyVal)
    (buf : List Captured) (h : unexpectedShape o = true) :
    ∃ e, hook_fn name o buf = .error e := by
  cases o with
  | tensor t => simp [unexpectedShape] at h
  | tup vs =>
    cases vs with
    | nil => exact ⟨.indexError, rfl⟩
    | cons v rest =>
      cases v with
      | tensor t => simp [unexpectedShape, isTensorB] at h
      | tup ws => exact ⟨.attributeError, rfl⟩
      | pyList ws => exact ⟨.attributeError, rfl⟩
      | noneVal => exact ⟨.attributeError, rfl⟩
      | str s => exact ⟨.attributeError, rfl⟩
  | pyList vs => exact ⟨.attributeError, rfl⟩
  | noneVal => exact ⟨.attributeError, rfl⟩
  | str s => exact ⟨.attributeError, rfl⟩

theorem c5_witness :
    unexpectedShape .noneVal = true ∧
      ∃ e, hook_fn "blk" .noneVal [] = .error e :=
  ⟨rfl, c5_unexpected_shape_raises "blk" .noneVal [] rfl⟩

/-- C7: on each forward invocation of a matched layer whose output is a plain
tensor, or a tuple with a tensor first element, `hook_fn` appends exactly one
record holding that primary tensor converted to a detached, CPU-resident,
float32 copy (shape and data unchanged), and returns `none` to the hook
framework, so the layer's own output stands unmodified. -/
theorem c7_capture_fidelity (name : String) (t : Tensor) (buf : List Captured)
    (out : PyVal) (rest : List PyVal)
    (h : out = .tensor t ∨ out = .tup (.tensor t :: rest)) :
    hook_fn name out buf =
      .ok (buf ++ [⟨name, ((t.toFloat32).detach).cpu⟩], none) ∧
    (((t.toFloat32).detach).cpu).data = t.data ∧
    (((t.toFloat32).detach).cpu).shape = t.shape ∧
    (((t.toFloat32).detach).cpu).dtype = .float32 ∧
    (((t.toFloat32).detach).cpu).device = .cpu ∧
    (((t.toFloat32).detach).cpu).requiresGrad = false := by
  rcases h with h | h <;> subst h <;> exact ⟨rfl, rfl, rfl, rfl, rfl, rfl⟩

theorem c7_witness :
    (PyVal.tensor sampleTensor = .tensor sampleTensor ∨
      PyVal.tensor sampleTensor = .tup (.tensor sampleTensor :: [])) ∧
    (hook_fn "blk" (.tensor sampleTensor) [] =
      .ok ([⟨"blk", ((sampleTensor.toFloat32).detach).cpu⟩], none) ∧
    (((sampleTensor.toFloat32).detach).cpu).data = sampleTensor.data ∧
    (((sampleTensor.toFloat32).detach).cpu).shape = sampleTensor.shape ∧
    (((sampleTensor.toFloat32).detach).cpu).dtype = .float32 ∧
    (((sampleTensor.toFloat32).detach).cpu).device = .cpu ∧
    (((sampleTensor.toFloat32).detach).cpu).requiresGrad = false) :=
  ⟨Or.inl rfl,
   c7_capture_fidelity "blk" sampleTensor [] (.tensor sampleTensor) [] (Or.inl rfl)⟩

/-- C9 counterexample: a concrete two-record run with one matched layer.  The
claim says serialization operates on a copy and the original RunMetadata record
stays unchanged; in the code `save_metadata` assigns into the shared dict, so
after the run the record carries `module_name = "blk"` and `embed_dim = 8`,
while at creation both keys were absent. -/
theorem c9_counterexample :
    (run_inference attnModel 2 envAllOk "ts" sampleArgs).em.module_name
        = some "blk" ∧
    (run_inference attnModel 2 envAllOk "ts" sampleArgs).em.embed_dim
        = some 8 := by
  exact ⟨by decide, by decide⟩

/-- C9 (amended): `save_metadata` mutates the shared `experiment_metadata`
record in place — after a call it carries `module_name = activation.name` and
`embed_dim = tensor.shape[-1]` (even when the write itself fails, since the
assignments precede the `open`); the remaining seven fields are preserved. -/
theorem c9_save_metadata_mutates_in_place (writeOk : List String → Bool)
    (em : Metadata) (act : Captured) (output_dir : List String) (fs : FS) :
    (save_metadata writeOk em act output_dir fs).2.1.module_name
        = some act.name ∧
    (save_metadata writeOk em act output_dir fs).2.1.embed_dim
        = some act.output.lastDim ∧
    (save_metadata writeOk em act output_dir fs).2.1.data_dir = em.data_dir ∧
    (save_metadata writeOk em act output_dir fs).2.1.dataset_split
        = em.dataset_split ∧
    (save_metadata writeOk em act output_dir fs).2.1.dataset_subsplit
        = em.dataset_subsplit ∧
    (save_metadata writeOk em act output_dir fs).2.1.batch_size
        = em.batch_size ∧
    (save_metadata writeOk em act output_dir fs).2.1.max_seq_length
        = em.max_seq_length ∧
    (save_metadata writeOk em act output_dir fs).2.1.base_model
        = em.base_model ∧
    (save_metadata writeOk em act output_dir fs).2.1.timestamp
        = em.timestamp := by
  rw [save_metadata_em]
  exact ⟨rfl, rfl, rfl, rfl, rfl, rfl, rfl, rfl, rfl⟩

/-- C1 counterexample: one matched layer, a two-record dataset, and a file
system on which every write fails.  The persistence step raises on the first
batch, and the buffer still holds the batch's record when the run aborts —
the claimed unconditional clearing does not happen on the failure path. -/
theorem c1_counterexample :
    (run_inference attnModel 2 envNoWrites "ts" sampleArgs).error
        = some .persistError ∧
    (run_inference attnModel 2 envNoWrites "ts" sampleArgs).buffer ≠ [] :=
  ⟨by decide, by decide⟩

/-- C1 (amended): whenever the persistence step of a batch succeeds (as do
batch preparation and the forward pass), the loop proceeds to the remaining
batches with the Activation Buffer reset to length 0; when the persistence
step raises, the exception exits the loop (no further batch is processed) and
the buffer is not cleared. -/
theorem c1_buffer_cleared_after_successful_persist (cfg : RunCfg) (i : Nat)
    (rest : List Nat) (st : LoopState) (buf2 : List Captured) (em2 : Metadata)
    (fs2 : FS)
    (hprep : cfg.env.prepOk i = true)
    (hhooks : fireHooks cfg.hookNames (cfg.env.outputs i) st.buffer
        = (true, buf2))
    (hsave : save_batch_activations cfg.env.writeOk buf2 (cfg.env.seqLens i)
        st.em cfg.data_dir cfg.dataset_name cfg.model_name cfg.timestamp
        (i / cfg.batch_size) st.fs = (true, em2, fs2)) :
    runBatches cfg (i :: rest) st =
      runBatches cfg rest { buffer := [], em := em2, fs := fs2 } := by
  have hb : runBatch cfg i st = (none, ⟨[], em2, fs2⟩) := by
    simp only [runBatch]
    rw [if_pos hprep, hhooks]
    simp only [hsave]
  simp only [runBatches, hb]

def em0W : Metadata :=
  { data_dir := "outputs", dataset_split := "sample"
    dataset_subsplit := "validation", batch_size := 2
    max_seq_length := none, base_model := "evo", timestamp := "ts" }

def cfgW : RunCfg :=
  { env := envAllOk, hookNames := ["blk"], data_dir := "outputs"
    dataset_name := "dn", model_name := "evo", timestamp := "ts"
    batch_size := 2 }

def buf2W : List Captured := [⟨"blk", ((sampleTensor.toFloat32).detach).cpu⟩]

def em2W : Metadata :=
  { em0W with module_name := some "blk", embed_dim := some 8 }

def dirW : List String := ["outputs", "dn", "evo", "blk", "ts"]

def fs2W : FS :=
  [(mdPath dirW, .metadataJson em2W),
   (dirW ++ [payloadName 0], .payload ((sampleTensor.toFloat32).detach).cpu [3, 2])]

theorem c1_witness :
    cfgW.env.prepOk 0 = true ∧
    fireHooks cfgW.hookNames (cfgW.env.outputs 0)
        (LoopState.mk [] em0W []).buffer = (true, buf2W) ∧
    save_batch_activations cfgW.env.writeOk buf2W (cfgW.env.seqLens 0)
        (LoopState.mk [] em0W []).em cfgW.data_dir cfgW.dataset_name
        cfgW.model_name cfgW.timestamp (0 / cfgW.batch_size)
        (LoopState.mk [] em0W []).fs = (true, em2W, fs2W) ∧
    runBatches cfgW (0 :: [2]) (LoopState.mk [] em0W []) =
      runBatches cfgW [2] { buffer := [], em := em2W, fs := fs2W } :=
  ⟨by decide, by decide, by decide,
   c1_buffer_cleared_after_successful_persist cfgW 0 [2]
     (LoopState.mk [] em0W []) buf2W em2W fs2W (by decide) (by decide)
     (by decide)⟩

lemma register_hooks_eq_nil (model : List Module) (dd bm : String)
    (h : ∀ m ∈ model, strContains m.typeStr "AttentionBlock" = false) :
    (register_hooks model dd bm).1 = [] := by
  simp only [register_hooks]
  rw [List.filterMap_eq_nil_iff]
  intro m hm
  simp [h m hm]

lemma runBatches_no_hooks (cfg : RunCfg) (hh : cfg.hookNames = [])
    (hp : ∀ i, cfg.env.prepOk i = true) :
    ∀ starts em fs,
      runBatches cfg starts ⟨[], em, fs⟩ = (none, ⟨[], em, fs⟩) := by
  intro starts
  induction starts with
  | nil => intro em fs; rfl
  | cons i rest ih =>
    intro em fs
    have hb : runBatch cfg i ⟨[], em, fs⟩ = (none, ⟨[], em, fs⟩) := by
      simp only [runBatch]
      rw [if_pos (hp i), hh]
      rfl
    simp only [runBatches, hb]
    exact ih em fs

/-- C4 counterexample: a model with zero layers of the target kind, a
five-record dataset, and all collaborators succeeding.  The claim says a
ConfigurationError is raised before dataset iteration begins; the code raises
nothing — `register_hooks` returns empty lists and the run completes the whole
batch loop normally (zero files are written, as the claim also says). -/
theorem c4_counterexample :
    (run_inference plainModel 5 envAllOk "ts" sampleArgs).error = none ∧
    (run_inference plainModel 5 envAllOk "ts" sampleArgs).fs = [] ∧
    (run_inference plainModel 5 envAllOk "ts" sampleArgs).hooksInstalled = 0 :=
  ⟨by decide, by decide, by decide⟩

/-- C4 (amended): if the model has zero layers whose type matches
`"AttentionBlock"`, the run installs zero hooks and proceeds silently through
the whole batch loop — no error of any kind is raised (when batch preparation
succeeds) and zero files are written. -/
theorem c4_zero_match_is_silent_noop (model : List Module) (len : Nat)
    (env : BatchEnv) (ts : String) (args : Args)
    (hmodel : ∀ m ∈ model, strContains m.typeStr "AttentionBlock" = false)
    (hprep : ∀ i, env.prepOk i = true) :
    (run_inference model len env ts args).error = none ∧
    (run_inference model len env ts args).fs = [] ∧
    (run_inference model len env ts args).hooksInstalled = 0 := by
  have hhooks := register_hooks_eq_nil model args.data_dir args.model hmodel
  simp only [run_inference, register_hooks] at hhooks ⊢
  rw [hhooks]
  rw [runBatches_no_hooks _ rfl hprep]
  exact ⟨rfl, rfl, rfl⟩

theorem c4_witness :
    (∀ m ∈ plainModel, strContains m.typeStr "AttentionBlock" = false) ∧
    (∀ i, envAllOk.prepOk i = true) ∧
    ((run_inference plainModel 5 envAllOk "ts" sampleArgs).error = none ∧
     (run_inference plainModel 5 envAllOk "ts" sampleArgs).fs = [] ∧
     (run_inference plainModel 5 envAllOk "ts" sampleArgs).hooksInstalled
        = 0) :=
  ⟨by decide, fun _ => rfl,
   c4_zero_match_is_silent_noop plainModel 5 envAllOk "ts" sampleArgs
     (by decide) (fun _ => rfl)⟩

/-- The seven fields of the RunMetadata record that exist from run start
(everything except the per-destination `module_name` / `embed_dim`). -/
def Metadata.core (m : Metadata) :
    String × String × String × Nat × Option Nat × String × String :=
  (m.data_dir, m.dataset_split, m.dataset_subsplit, m.batch_size,
   m.max_seq_length, m.base_model, m.timestamp)

lemma ensure_metadata_core (w : List String → Bool) (em : Metadata)
    (act : Captured) (odir : List String) (fs : FS) :
    ((ensure_metadata w em act odir fs).2.1).core = em.core := by
  unfold ensure_metadata
  split
  · rfl
  · rw [save_metadata_em]
    rfl

lemma sba_core (w : List String → Bool) :
    ∀ (acts : List Captured) (sls : List Nat) (em : Metadata)
      (dd dn mn ts : String) (k : Nat) (fs : FS),
      ((save_batch_activations w acts sls em dd dn mn ts k fs).2.1).core
        = em.core := by
  intro acts
  induction acts with
  | nil => intros; rfl
  | cons act rest ih =>
    intro sls em dd dn mn ts k fs
    simp only [save_batch_activations]
    rcases hstep : ensure_metadata w em act [dd, dn, mn, act.name, ts] fs
      with ⟨sok, em1, fs1⟩
    have hem1 : em1.core = em.core := by
      have h := ensure_metadata_core w em act [dd, dn, mn, act.name, ts] fs
      rw [hstep] at h
      exact h
    cases sok
    · exact hem1
    · show (if w ([dd, dn, mn, act.name, ts] ++ [payloadName k]) = true then
          save_batch_activations w rest sls em1 dd dn mn ts k
            (fs1.write ([dd, dn, mn, act.name, ts] ++ [payloadName k])
              (FileContent.payload act.output sls))
        else (false, em1, fs1)).2.1.core = em.core
      by_cases hw : w ([dd, dn, mn, act.name, ts] ++ [payloadName k]) = true
      · rw [if_pos hw]
        exact (ih ..).trans hem1
      · rw [if_neg hw]
        exact hem1

lemma runBatch_em_core (cfg : RunCfg) (i : Nat) (st : LoopState) :
    ((runBatch cfg i st).2.em).core = st.em.core := by
  simp only [runBatch]
  split
  · split
    · rfl
    · next buf2 heq =>
      split
      · next em2 fs2 heq2 =>
        have h := sba_core cfg.env.writeOk buf2 (cfg.env.seqLens i) st.em
          cfg.data_dir cfg.dataset_name cfg.model_name cfg.timestamp
          (i / cfg.batch_size) st.fs
        rw [heq2] at h
        exact h
      · next em2 fs2 heq2 =>
        have h := sba_core cfg.env.writeOk buf2 (cfg.env.seqLens i) st.em
          cfg.data_dir cfg.dataset_name cfg.model_name cfg.timestamp
          (i / cfg.batch_size) st.fs
        rw [heq2] at h
        exact h
  · rfl

lemma runBatches_em_core (cfg : RunCfg) :
    ∀ (starts : List Nat) (st : LoopState),
      ((runBatches cfg starts st).2.em).core = st.em.core := by
  intro starts
  induction starts with
  | nil => intro st; rfl
  | cons i rest ih =>
    intro st
    have hb := runBatch_em_core cfg i st
    simp only [runBatches]
    rcases h : runBatch cfg i st with ⟨err, st2⟩
    rw [h] at hb
    cases err
    · exact (ih st2).trans hb
    · exact hb

/-- C10: for every invocation of `run_inference` reached from any command line
accepted by `parse_args` (which exposes no subsplit flag — `CliOptions` and
`Args` have no such field), the dataset subsplit recorded in the metadata
record is the fixed constant `"validation"`, and the dataset name used for
every destination path ends in that same constant. -/
theorem c10_subsplit_is_fixed_validation (o : CliOptions) (args : Args)
    (h : parse_args o = some args) (model : List Module) (len : Nat)
    (env : BatchEnv) (ts : String) :
    (run_inference model len env ts args).em.dataset_subsplit = "validation" ∧
    (run_inference model len env ts args).dataset_name =
      replaceChar (DATASET_ID ++ "-" ++ args.dataset_split ++ "-" ++
        "validation") '/' '_' := by
  constructor
  · have hcore := runBatches_em_core
      { env := env
        hookNames := (register_hooks model args.data_dir args.model).1
        data_dir := args.data_dir
        dataset_name := replaceChar
          (DATASET_ID ++ "-" ++ args.dataset_split ++ "-" ++ "validation")
          '/' '_'
        model_name := args.model, timestamp := ts
        batch_size := args.batch_size }
      (batchStarts len args.batch_size)
      ⟨(register_hooks model args.data_dir args.model).2,
       { data_dir := args.data_dir, dataset_split := args.dataset_split
         dataset_subsplit := "validation", batch_size := args.batch_size
         max_seq_length := args.max_seq_length, base_model := args.model
         timestamp := ts }, []⟩
    simp only [run_inference]
    exact congrArg (fun x => x.2.2.1) hcore
  · rfl

theorem c10_witness :
    parse_args ⟨none, none, none, none, none⟩ =
      some ⟨"outputs", "evo-1-8k-base", 32, "sample", none⟩ ∧
    ((run_inference attnModel 2 envAllOk "ts"
        ⟨"outputs", "evo-1-8k-base", 32, "sample", none⟩).em.dataset_subsplit
          = "validation" ∧
     (run_inference attnModel 2 envAllOk "ts"
        ⟨"outputs", "evo-1-8k-base", 32, "sample", none⟩).dataset_name =
      replaceChar (DATASET_ID ++ "-" ++ "sample" ++ "-" ++ "validation")
        '/' '_') :=
  ⟨by decide,
   c10_subsplit_is_fixed_validation ⟨none, none, none, none, none⟩
     ⟨"outputs", "evo-1-8k-base", 32, "sample", none⟩ (by decide)
     attnModel 2 envAllOk "ts"⟩

/-! ## File-system invariants -/

/-- No destination's metadata document has ever been written more than once. -/
def MetaOnce (fs : FS) : Prop :=
  ∀ dir, writesAt fs (mdPath dir) ≤ 1

/-- Wherever a payload file exists, the destination's metadata document
exists. -/
def PayloadHasMeta (fs : FS) : Prop :=
  ∀ dir k, FS.pathExists fs (dir ++ [payloadName k]) = true →
    FS.pathExists fs (mdPath dir) = true

/-- Every file the run has written sits directly in a destination directory
of the fixed five-component form, and is either the metadata document or a
payload file. -/
def ShapedUnder (dd dn mn ts : String) (fs : FS) : Prop :=
  ∀ e ∈ fs, ∃ name fname,
    e.1 = [dd, dn, mn, name, ts, fname] ∧
    (fname = "metadata.json" ∨ ∃ k, fname = payloadName k)

lemma writesAt_write (fs : FS) (q : List String) (c : FileContent)
    (p : List String) :
    writesAt (fs.write q c) p = writesAt fs p + (if q = p then 1 else 0) := by
  simp only [writesAt, FS.write, List.countP_append, List.countP_cons,
    List.countP_nil]
  by_cases h : q = p
  · simp [h]
  · simp [h, beq_iff_eq]

lemma pathExists_write (fs : FS) (q : List String) (c : FileContent)
    (p : List String) :
    FS.pathExists (fs.write q c) p = (FS.pathExists fs p || (q == p)) := by
  simp [FS.pathExists, FS.write, List.any_append]

lemma pathExists_mono (fs : FS) (q : List String) (c : FileContent)
    (p : List String) (h : FS.pathExists fs p = true) :
    FS.pathExists (fs.write q c) p = true := by
  rw [pathExists_write, h, Bool.true_or]

lemma pathExists_iff_writesAt (fs : FS) (p : List String) :
    FS.pathExists fs p = true ↔ 0 < writesAt fs p := by
  rw [FS.pathExists, writesAt, List.any_eq_true, List.countP_pos_iff]

lemma pathExists_false_writesAt (fs : FS) (p : List String)
    (h : FS.pathExists fs p = false) : writesAt fs p = 0 := by
  by_contra hne
  have : FS.pathExists fs p = true :=
    (pathExists_iff_writesAt fs p).mpr (Nat.pos_of_ne_zero hne)
  rw [h] at this
  exact Bool.false_ne_true this

lemma append_singleton_inj {xs ys : List String} {a b : String}
    (h : xs ++ [a] = ys ++ [b]) : xs = ys ∧ a = b := by
  have hrev := congrArg List.reverse h
  simp only [List.reverse_append, List.reverse_singleton,
    List.singleton_append] at hrev
  obtain ⟨hab, hxy⟩ := List.cons.inj hrev
  exact ⟨by simpa using congrArg List.reverse hxy, hab⟩

lemma payloadName_ne_metadata (k : Nat) : payloadName k ≠ "metadata.json" := by
  intro h
  have hlen := congrArg String.length h
  simp only [payloadName, String.length_append] at hlen
  have h12 : ("activations_" : String).length = 12 := rfl
  have h3 : (".pt" : String).length = 3 := rfl
  have h13 : ("metadata.json" : String).length = 13 := rfl
  omega

lemma mdPath_ne_payload (dir dir2 : List String) (k : Nat) :
    mdPath dir ≠ dir2 ++ [payloadName k] := by
  intro h
  exact payloadName_ne_metadata k
    ((append_singleton_inj h.symm).2)

lemma payload_path_inj {dir dir2 : List String} {k k2 : Nat}
    (h : dir ++ [payloadName k] = dir2 ++ [payloadName k2]) : dir = dir2 :=
  (append_singleton_inj h).1

lemma ensure_metadata_fs (w : List String → Bool) (em : Metadata)
    (act : Captured) (odir : List String) (fs : FS) (sok : Bool)
    (em1 : Metadata) (fs1 : FS)
    (h : ensure_metadata w em act odir fs = (sok, em1, fs1)) :
    (fs1 = fs ∧ (sok = true → FS.pathExists fs (mdPath odir) = true)) ∨
    (sok = true ∧ FS.pathExists fs (mdPath odir) = false ∧
      ∃ m, fs1 = fs.write (mdPath odir) (.metadataJson m)) := by
  unfold ensure_metadata at h
  split at h
  · next hc =>
    injection h with h1 h23
    injection h23 with h2 h3
    exact .inl ⟨h3.symm, fun _ => hc⟩
  · next hc =>
    have hcf : FS.pathExists fs (mdPath odir) = false := by
      simpa using hc
    simp only [save_metadata] at h
    split at h
    · injection h with h1 h23
      injection h23 with h2 h3
      exact .inr ⟨h1.symm, hcf, ⟨_, h3.symm⟩⟩
    · injection h with h1 h23
      injection h23 with h2 h3
      exact .inl ⟨h3.symm, fun hs => absurd (h1.trans hs) Bool.false_ne_true⟩

lemma ensure_metadata_ok_exists (w : List String → Bool) (em : Metadata)
    (act : Captured) (odir : List String) (fs : FS) (em1 : Metadata) (fs1 : FS)
    (h : ensure_metadata w em act odir fs = (true, em1, fs1)) :
    FS.pathExists fs1 (mdPath odir) = true := by
  rcases ensure_metadata_fs w em act odir fs true em1 fs1 h with
    ⟨hfs, himp⟩ | ⟨-, -, m, hfs⟩
  · rw [hfs]
    exact himp rfl
  · rw [hfs, pathExists_write]
    simp

lemma ensure_metadata_inv (w : List String → Bool) (em : Metadata)
    (act : Captured) (odir : List String) (fs : FS) (sok : Bool)
    (em1 : Metadata) (fs1 : FS)
    (h : ensure_metadata w em act odir fs = (sok, em1, fs1))
    (h1 : MetaOnce fs) (h2 : PayloadHasMeta fs) :
    MetaOnce fs1 ∧ PayloadHasMeta fs1 ∧
      (∀ e ∈ fs1, e ∈ fs ∨
        ∃ m, e = (mdPath odir, FileContent.metadataJson m)) := by
  rcases ensure_metadata_fs w em act odir fs sok em1 fs1 h with
    ⟨hfs, -⟩ | ⟨-, hne, m, hfs⟩
  · subst hfs
    exact ⟨h1, h2, fun e he => .inl he⟩
  · subst hfs
    refine ⟨?_, ?_, ?_⟩
    · intro dir
      rw [writesAt_write]
      by_cases hd : mdPath odir = mdPath dir
      · have hdir : odir = dir := (append_singleton_inj hd).1
        subst hdir
        rw [if_pos rfl]
        have h0 : writesAt fs (mdPath odir) = 0 :=
          pathExists_false_writesAt _ _ hne
        omega
      · rw [if_neg hd]
        simpa using h1 dir
    · intro dir k hq
      rw [pathExists_write] at hq
      rcases Bool.or_eq_true_iff.mp hq with hq | hq
      · exact pathExists_mono _ _ _ _ (h2 dir k hq)
      · exact absurd (eq_of_beq hq) (mdPath_ne_payload odir dir k)
    · intro e he
      rcases List.mem_append.mp he with he | he
      · exact .inl he
      · exact .inr ⟨m, by simpa using he⟩

lemma sba_fs_master (w : List String → Bool) (sls : List Nat)
    (dd dn mn ts : String) (k : Nat) :
    ∀ (acts : List Captured) (em : Metadata) (fs : FS),
      MetaOnce fs → PayloadHasMeta fs →
      MetaOnce (save_batch_activations w acts sls em dd dn mn ts k fs).2.2 ∧
      PayloadHasMeta
        (save_batch_activations w acts sls em dd dn mn ts k fs).2.2 ∧
      (∀ e ∈ (save_batch_activations w acts sls em dd dn mn ts k fs).2.2,
        e ∈ fs ∨
        (∃ name m,
          e = ([dd, dn, mn, name, ts] ++ ["metadata.json"],
               FileContent.metadataJson m)) ∨
        (∃ name t sl,
          e = ([dd, dn, mn, name, ts] ++ [payloadName k],
               FileContent.payload t sl))) := by
  intro acts
  induction acts with
  | nil =>
    intro em fs h1 h2
    exact ⟨h1, h2, fun e he => .inl he⟩
  | cons act rest ih =>
    intro em fs h1 h2
    rcases hensure : ensure_metadata w em act [dd, dn, mn, act.name, ts] fs
      with ⟨sok, em1, fs1⟩
    obtain ⟨hm1, hp1, hsh1⟩ :=
      ensure_metadata_inv w em act [dd, dn, mn, act.name, ts] fs sok em1 fs1
        hensure h1 h2
    have hstep1 : ∀ e ∈ fs1, e ∈ fs ∨
        (∃ name m,
          e = ([dd, dn, mn, name, ts] ++ ["metadata.json"],
               FileContent.metadataJson m)) ∨
        (∃ name t sl,
          e = ([dd, dn, mn, name, ts] ++ [payloadName k],
               FileContent.payload t sl)) := by
      intro e he
      rcases hsh1 e he with he | ⟨m, hm⟩
      · exact .inl he
      · exact .inr (.inl ⟨act.name, m, hm⟩)
    cases sok
    · have hred : save_batch_activations w (act :: rest) sls em dd dn mn ts k fs
          = (false, em1, fs1) := by
        simp only [save_batch_activations]
        rw [hensure]
      rw [hred]
      exact ⟨hm1, hp1, hstep1⟩
    · by_cases hw : w ([dd, dn, mn, act.name, ts] ++ [payloadName k]) = true
      · have hred : save_batch_activations w (act :: rest) sls em dd dn mn ts k
            fs = save_batch_activations w rest sls em1 dd dn mn ts k
              (fs1.write ([dd, dn, mn, act.name, ts] ++ [payloadName k])
                (FileContent.payload act.output sls)) := by
          simp only [save_batch_activations]
          rw [hensure]
          simp only [if_pos hw]
        rw [hred]
        have hmeta1 : FS.pathExists fs1
            (mdPath [dd, dn, mn, act.name, ts]) = true :=
          ensure_metadata_ok_exists w em act [dd, dn, mn, act.name, ts] fs
            em1 fs1 hensure
        have hm2 : MetaOnce
            (fs1.write ([dd, dn, mn, act.name, ts] ++ [payloadName k])
              (FileContent.payload act.output sls)) := by
          intro dir
          rw [writesAt_write]
          rw [if_neg (fun hne => mdPath_ne_payload dir [dd, dn, mn, act.name, ts] k hne.symm)]
          simpa using hm1 dir
        have hp2 : PayloadHasMeta
            (fs1.write ([dd, dn, mn, act.name, ts] ++ [payloadName k])
              (FileContent.payload act.output sls)) := by
          intro dir k2 hq
          rw [pathExists_write] at hq
          rcases Bool.or_eq_true_iff.mp hq with hq | hq
          · exact pathExists_mono _ _ _ _ (hp1 dir k2 hq)
          · have hdir : [dd, dn, mn, act.name, ts] = dir :=
              payload_path_inj (eq_of_beq hq)
            subst hdir
            exact pathExists_mono _ _ _ _ hmeta1
        obtain ⟨hm3, hp3, hsh3⟩ := ih em1 _ hm2 hp2
        refine ⟨hm3, hp3, fun e he => ?_⟩
        rcases hsh3 e he with he2 | shape
        · rcases List.mem_append.mp he2 with he3 | he3
          · exact hstep1 e he3
          · right
            right
            exact ⟨act.name, act.output, sls, by simpa using he3⟩
        · exact .inr shape
      · have hred : save_batch_activations w (act :: rest) sls em dd dn mn ts k
            fs = (false, em1, fs1) := by
          simp only [save_batch_activations]
          rw [hensure]
          simp only [if_neg hw]
        rw [hred]
        exact ⟨hm1, hp1, hstep1⟩

/-- The placement shape every run-written file has: a five-component
destination directory holding `metadata.json` or a payload file. -/
def EntryShaped (dd dn mn ts : String) (e : List String × FileContent) : Prop :=
  (∃ name m, e = ([dd, dn, mn, name, ts] ++ ["metadata.json"],
      FileContent.metadataJson m)) ∨
  (∃ name k t sl, e = ([dd, dn, mn, name, ts] ++ [payloadName k],
      FileContent.payload t sl))

lemma runBatch_fs_inv (cfg : RunCfg) (i : Nat) (st : LoopState)
    (h1 : MetaOnce st.fs) (h2 : PayloadHasMeta st.fs) :
    MetaOnce (runBatch cfg i st).2.fs ∧
    PayloadHasMeta (runBatch cfg i st).2.fs ∧
    (∀ e ∈ (runBatch cfg i st).2.fs, e ∈ st.fs ∨
      EntryShaped cfg.data_dir cfg.dataset_name cfg.model_name
        cfg.timestamp e) := by
  simp only [runBatch]
  split
  · split
    · exact ⟨h1, h2, fun e he => .inl he⟩
    · next buf2 heq =>
      have hsba := sba_fs_master cfg.env.writeOk (cfg.env.seqLens i)
        cfg.data_dir cfg.dataset_name cfg.model_name cfg.timestamp
        (i / cfg.batch_size) buf2 st.em st.fs h1 h2
      split
      · next em2 fs2 heq2 =>
        rw [heq2] at hsba
        refine ⟨hsba.1, hsba.2.1, fun e he => ?_⟩
        rcases hsba.2.2 e he with he2 | ⟨name, m, hm⟩ | ⟨name, t, sl, hm⟩
        · exact .inl he2
        · exact .inr (.inl ⟨name, m, hm⟩)
        · exact .inr (.inr ⟨name, i / cfg.batch_size, t, sl, hm⟩)
      · next em2 fs2 heq2 =>
        rw [heq2] at hsba
        refine ⟨hsba.1, hsba.2.1, fun e he => ?_⟩
        rcases hsba.2.2 e he with he2 | ⟨name, m, hm⟩ | ⟨name, t, sl, hm⟩
        · exact .inl he2
        · exact .inr (.inl ⟨name, m, hm⟩)
        · exact .inr (.inr ⟨name, i / cfg.batch_size, t, sl, hm⟩)
  · exact ⟨h1, h2, fun e he => .inl he⟩

lemma runBatches_fs_inv (cfg : RunCfg) :
    ∀ (starts : List Nat) (st : LoopState),
      MetaOnce st.fs → PayloadHasMeta st.fs →
      MetaOnce (runBatches cfg starts st).2.fs ∧
      PayloadHasMeta (runBatches cfg starts st).2.fs ∧
      (∀ e ∈ (runBatches cfg starts st).2.fs, e ∈ st.fs ∨
        EntryShaped cfg.data_dir cfg.dataset_name cfg.model_name
          cfg.timestamp e) := by
  intro starts
  induction starts with
  | nil =>
    intro st h1 h2
    exact ⟨h1, h2, fun e he => .inl he⟩
  | cons i rest ih =>
    intro st h1 h2
    obtain ⟨hb1, hb2, hb3⟩ := runBatch_fs_inv cfg i st h1 h2
    simp only [runBatches]
    rcases h : runBatch cfg i st with ⟨err, st2⟩
    rw [h] at hb1 hb2 hb3
    cases err
    · obtain ⟨hm, hp, hsh⟩ := ih st2 hb1 hb2
      refine ⟨hm, hp, fun e he => ?_⟩
      rcases hsh e he with he2 | shape
      · exact hb3 e he2
      · exact .inr shape
    · exact ⟨hb1, hb2, hb3⟩

/-- C2: within one run, for any destination `dir` where a payload file exists,
the metadata document at `dir` was written exactly once over the whole run
(the file system is the append-only log of writes, so a single write also
means the document's `module_name`/`embed_dim` fields never change on disk
afterwards); and no destination's metadata document is ever written more than
once.  This covers failing runs too: `env` ranges over all write outcomes. -/
theorem c2_metadata_written_once (model : List Module) (len : Nat)
    (env : BatchEnv) (ts : String) (args : Args) (dir dir2 : List String)
    (k : Nat)
    (hk : FS.pathExists (run_inference model len env ts args).fs
        (dir ++ [payloadName k]) = true) :
    writesAt (run_inference model len env ts args).fs (mdPath dir) = 1 ∧
    writesAt (run_inference model len env ts args).fs (mdPath dir2) ≤ 1 := by
  have hinv := runBatches_fs_inv
    { env := env
      hookNames := (register_hooks model args.data_dir args.model).1
      data_dir := args.data_dir
      dataset_name := replaceChar
        (DATASET_ID ++ "-" ++ args.dataset_split ++ "-" ++ "validation")
        '/' '_'
      model_name := args.model, timestamp := ts
      batch_size := args.batch_size }
    (batchStarts len args.batch_size)
    ⟨(register_hooks model args.data_dir args.model).2,
     { data_dir := args.data_dir, dataset_split := args.dataset_split
       dataset_subsplit := "validation", batch_size := args.batch_size
       max_seq_length := args.max_seq_length, base_model := args.model
       timestamp := ts }, []⟩
    (fun d => Nat.zero_le 1) (fun d k2 hq => by cases hq)
  simp only [run_inference] at hk ⊢
  refine ⟨?_, hinv.1 dir2⟩
  have hex := hinv.2.1 dir k hk
  have hpos := (pathExists_iff_writesAt _ _).mp hex
  have hle := hinv.1 dir
  omega

theorem c2_witness :
    FS.pathExists (run_inference attnModel 5 envAllOk "ts" sampleArgs).fs
        (["outputs", "LongSafari_open-genome-sample-validation",
          "evo-1-8k-base", "blk", "ts"] ++ [payloadName 0]) = true ∧
    (writesAt (run_inference attnModel 5 envAllOk "ts" sampleArgs).fs
        (mdPath ["outputs", "LongSafari_open-genome-sample-validation",
          "evo-1-8k-base", "blk", "ts"]) = 1 ∧
     writesAt (run_inference attnModel 5 envAllOk "ts" sampleArgs).fs
        (mdPath ["outputs", "LongSafari_open-genome-sample-validation",
          "evo-1-8k-base", "blk", "ts"]) ≤ 1) :=
  ⟨by decide,
   c2_metadata_written_once attnModel 5 envAllOk "ts" sampleArgs
     ["outputs", "LongSafari_open-genome-sample-validation",
      "evo-1-8k-base", "blk", "ts"]
     ["outputs", "LongSafari_open-genome-sample-validation",
      "evo-1-8k-base", "blk", "ts"] 0 (by decide)⟩

lemma sba_shape (w : List String → Bool) (sls : List Nat)
    (dd dn mn ts : String) (k : Nat) :
    ∀ (acts : List Captured) (em : Metadata) (fs : FS),
      ∀ e ∈ (save_batch_activations w acts sls em dd dn mn ts k fs).2.2,
        e ∈ fs ∨
        (∃ name m,
          e = ([dd, dn, mn, name, ts] ++ ["metadata.json"],
               FileContent.metadataJson m)) ∨
        (∃ name t sl,
          e = ([dd, dn, mn, name, ts] ++ [payloadName k],
               FileContent.payload t sl)) := by
  intro acts
  induction acts with
  | nil => intro em fs e he; exact .inl he
  | cons act rest ih =>
    intro em fs e
    rcases hensure : ensure_metadata w em act [dd, dn, mn, act.name, ts] fs
      with ⟨sok, em1, fs1⟩
    have hfs1 : ∀ e2 ∈ fs1, e2 ∈ fs ∨
        ∃ m, e2 = (mdPath [dd, dn, mn, act.name, ts],
          FileContent.metadataJson m) := by
      rcases ensure_metadata_fs w em act [dd, dn, mn, act.name, ts] fs sok em1
          fs1 hensure with ⟨hfs, -⟩ | ⟨-, -, m, hfs⟩
      · subst hfs
        exact fun e2 he2 => .inl he2
      · subst hfs
        intro e2 he2
        rcases List.mem_append.mp he2 with he2 | he2
        · exact .inl he2
        · exact .inr ⟨m, by simpa using he2⟩
    cases sok
    · have hred : save_batch_activations w (act :: rest) sls em dd dn mn ts k
          fs = (false, em1, fs1) := by
        simp only [save_batch_activations]
        rw [hensure]
      rw [hred]
      intro he
      rcases hfs1 e he with h | ⟨m, hm⟩
      · exact .inl h
      · exact .inr (.inl ⟨act.name, m, hm⟩)
    · by_cases hw : w ([dd, dn, mn, act.name, ts] ++ [payloadName k]) = true
      · have hred : save_batch_activations w (act :: rest) sls em dd dn mn ts k
            fs = save_batch_activations w rest sls em1 dd dn mn ts k
              (fs1.write ([dd, dn, mn, act.name, ts] ++ [payloadName k])
                (FileContent.payload act.output sls)) := by
          simp only [save_batch_activations]
          rw [hensure]
          simp only [if_pos hw]
        rw [hred]
        intro he
        rcases ih em1 _ e he with he2 | shape
        · rcases List.mem_append.mp he2 with he3 | he3
          · rcases hfs1 e he3 with h | ⟨m, hm⟩
            · exact .inl h
            · exact .inr (.inl ⟨act.name, m, hm⟩)
          · exact .inr (.inr ⟨act.name, act.output, sls, by simpa using he3⟩)
        · exact .inr shape
      · have hred : save_batch_activations w (act :: rest) sls em dd dn mn ts k
            fs = (false, em1, fs1) := by
          simp only [save_batch_activations]
          rw [hensure]
          simp only [if_neg hw]
        rw [hred]
        intro he
        rcases hfs1 e he with h | ⟨m, hm⟩
        · exact .inl h
        · exact .inr (.inl ⟨act.name, m, hm⟩)

/-- C6: the Run Driver computes every payload file's batch index as
`dataset_offset // batch_size` (`runBatch` calls `save_batch_activations`
with `batch_idx = sample_idx / batch_size` by definition).  Over the loop's
offsets `range(0, len, batch_size)` these indices are exactly `0, 1, 2, …`,
hence pairwise distinct — no index is ever reused by two different
persistence invocations of a run — and every payload file a persistence
invocation adds (any entry not already in the log whose content is a payload)
is named `activations_<batch_idx>` inside its destination. -/
theorem c6_batch_index_never_reused (len bs : Nat) (hbs : 0 < bs)
    (w : List String → Bool) (acts : List Captured) (sls : List Nat)
    (em : Metadata) (dd dn mn ts : String) (k : Nat) (fs : FS)
    (p : List String) (c : FileContent)
    (hmem : (p, c) ∈ (save_batch_activations w acts sls em dd dn mn ts k
        fs).2.2)
    (hnew : (p, c) ∉ fs)
    (hpay : ∃ t sl, c = FileContent.payload t sl) :
    (batchStarts len bs).map (fun i => i / bs)
        = List.range ((len + bs - 1) / bs) ∧
    ((batchStarts len bs).map (fun i => i / bs)).Nodup ∧
    ∃ dir, p = dir ++ [payloadName k] := by
  have hidx : (batchStarts len bs).map (fun i => i / bs)
      = List.range ((len + bs - 1) / bs) := by
    unfold batchStarts
    rw [List.map_map]
    have hcomp : ((fun i => i / bs) ∘ (· * bs)) = id :=
      funext fun i => Nat.mul_div_cancel i hbs
    rw [hcomp, List.map_id]
  refine ⟨hidx, by rw [hidx]; exact List.nodup_range _, ?_⟩
  rcases sba_shape w sls dd dn mn ts k acts em fs (p, c) hmem with
    he | ⟨name, m, hm⟩ | ⟨name, t, sl, hm⟩
  · exact absurd he hnew
  · obtain ⟨t, sl, hc⟩ := hpay
    have hsnd := congrArg Prod.snd hm
    rw [hc] at hsnd
    exact absurd hsnd (by simp)
  · exact ⟨[dd, dn, mn, name, ts], congrArg Prod.fst hm⟩

theorem c6_witness :
    0 < 2 ∧
    ((["outputs", "dn", "evo", "blk", "ts"] ++ [payloadName 0],
        FileContent.payload sampleTensor [3, 2]) ∈
      (save_batch_activations (fun _ => true) [⟨"blk", sampleTensor⟩] [3, 2]
        em0W "outputs" "dn" "evo" "ts" 0 []).2.2) ∧
    ((batchStarts 5 2).map (fun i => i / 2) = List.range ((5 + 2 - 1) / 2) ∧
     ((batchStarts 5 2).map (fun i => i / 2)).Nodup ∧
     ∃ dir, (["outputs", "dn", "evo", "blk", "ts"] ++ [payloadName 0] :
        List String) = dir ++ [payloadName 0]) :=
  ⟨by decide, by decide,
   c6_batch_index_never_reused 5 2 (by decide) (fun _ => true)
     [⟨"blk", sampleTensor⟩] [3, 2] em0W "outputs" "dn" "evo" "ts" 0 []
     (["outputs", "dn", "evo", "blk", "ts"] ++ [payloadName 0])
     (FileContent.payload sampleTensor [3, 2]) (by decide) (by decide)
     ⟨sampleTensor, [3, 2], rfl⟩⟩

/-- C8: every file the run writes sits at
`data_dir/<dataset_name>/<model>/<layer>/<run_timestamp>/<fname>` where
`fname` is `metadata.json` or `activations_<batch_index>.pt`, and
`dataset_name` is `<DATASET_ID>-<split>-<subsplit>` with every path separator
replaced by an underscore (with the subsplit fixed to `"validation"`). -/
theorem c8_storage_layout (model : List Module) (len : Nat) (env : BatchEnv)
    (ts : String) (args : Args) (p : List String) (c : FileContent)
    (hmem : (p, c) ∈ (run_inference model len env ts args).fs) :
    ∃ layer fname,
      p = [args.data_dir,
           replaceChar (DATASET_ID ++ "-" ++ args.dataset_split ++ "-" ++
             "validation") '/' '_',
           args.model, layer, ts, fname] ∧
      (fname = "metadata.json" ∨ ∃ k, fname = payloadName k) := by
  have hinv := runBatches_fs_inv
    { env := env
      hookNames := (register_hooks model args.data_dir args.model).1
      data_dir := args.data_dir
      dataset_name := replaceChar
        (DATASET_ID ++ "-" ++ args.dataset_split ++ "-" ++ "validation")
        '/' '_'
      model_name := args.model, timestamp := ts
      batch_size := args.batch_size }
    (batchStarts len args.batch_size)
    ⟨(register_hooks model args.data_dir args.model).2,
     { data_dir := args.data_dir, dataset_split := args.dataset_split
       dataset_subsplit := "validation", batch_size := args.batch_size
       max_seq_length := args.max_seq_length, base_model := args.model
       timestamp := ts }, []⟩
    (fun d => Nat.zero_le 1) (fun d k2 hq => by cases hq)
  simp only [run_inference] at hmem
  rcases hinv.2.2 (p, c) hmem with he | ⟨name, m, hm⟩ | ⟨name, k, t, sl, hm⟩
  · cases he
  · exact ⟨name, "metadata.json", congrArg Prod.fst hm, .inl rfl⟩
  · exact ⟨name, payloadName k, congrArg Prod.fst hm, .inr ⟨k, rfl⟩⟩

theorem c8_witness :
    ((["outputs", "LongSafari_open-genome-sample-validation",
        "evo-1-8k-base", "blk", "ts", "metadata.json"],
      FileContent.metadataJson
        { data_dir := "outputs", dataset_split := "sample"
          dataset_subsplit := "validation", batch_size := 2
          max_seq_length := none, base_model := "evo-1-8k-base"
          timestamp := "ts", module_name := some "blk"
          embed_dim := some 8 }) ∈
      (run_inference attnModel 5 envAllOk "ts" sampleArgs).fs) ∧
    (∃ layer fname,
      (["outputs", "LongSafari_open-genome-sample-validation",
        "evo-1-8k-base", "blk", "ts", "metadata.json"] : List String) =
        [sampleArgs.data_dir,
         replaceChar (DATASET_ID ++ "-" ++ sampleArgs.dataset_split ++ "-" ++
           "validation") '/' '_',
         sampleArgs.model, layer, "ts", fname] ∧
      (fname = "metadata.json" ∨ ∃ k, fname = payloadName k)) :=
  ⟨by decide,
   c8_storage_layout attnModel 5 envAllOk "ts" sampleArgs
     ["outputs", "LongSafari_open-genome-sample-validation",
      "evo-1-8k-base", "blk", "ts", "metadata.json"]
     (FileContent.metadataJson
        { data_dir := "outputs", dataset_split := "sample"
          dataset_subsplit := "validation", batch_size := 2
          max_seq_length := none, base_model := "evo-1-8k-base"
          timestamp := "ts", module_name := some "blk"
          embed_dim := some 8 }) (by decide)⟩

end Farm
